import Mathlib

/-!
Verification development for the vtt-remote session relay and pairing
protocol.  The definitions below are a shallow embedding of:

* `src/server/relay.go` / `src/server/message.go` — the WebSocket relay
  (room codes, join handshake, room registry, bounded outbound queues,
  identify handling, NATS topic publish/fan-out),
* the pairing-session module (pure clock-injected functions over a map
  keyed by pairing code),
* the phone-client reconnection logic (close handler and exponential
  backoff scheduling),
* `src/foundry-module/src/core/messages.ts` — the message envelope codec.

Wire data is modelled at the level of JSON values (`Json` below).  The
platform JSON codecs (`JSON.parse`/`JSON.stringify` in JS, `encoding/json`
in Go) are not part of the repository; they are modelled value-wise:
a raw wire string is represented by the JSON value it parses to, with
`Option.none` standing for text that is not well-formed JSON.  Numeric
leaves are modelled as integers (JS numbers are doubles; none of the
properties below depend on float formatting).  Go struct unmarshalling is
modelled on the exact lowercase field names used on the wire.
-/

namespace VttRemote

/-- JSON values.  Objects keep their field list; duplicate keys are
resolved by `lookupField` (last occurrence wins, as in both `JSON.parse`
and `encoding/json`). -/
inductive Json where
  | null : Json
  | bool (b : Bool) : Json
  | num (n : Int) : Json
  | str (s : String) : Json
  | arr (elems : List Json) : Json
  | obj (fields : List (String × Json)) : Json

/-- Field lookup in a JSON object literal: the last occurrence of a key
wins, matching `JSON.parse` and `encoding/json`. -/
def lookupField : List (String × Json) → String → Option Json
  | [], _ => none
  | (k, v) :: rest, key =>
    match lookupField rest key with
    | some w => some w
    | none => if k = key then some v else none

/-- JS property access `v[key]`: `none` models `undefined` (absent field,
or access on a non-object primitive/array). -/
def jsGetField (v : Json) (key : String) : Option Json :=
  match v with
  | .obj fields => lookupField fields key
  | _ => none

/-- The Go relay's envelope after `ParseEnvelope` (`message.go`):
`Type` is a string (zero value `""` when the field is absent) and
`Payload` is the raw payload JSON (`none` when absent, i.e. a nil
`json.RawMessage`). -/
structure GoEnvelope where
  type : String
  payload : Option Json

/-- `ParseEnvelope` from `src/server/message.go`, modelled on JSON values:
`json.Unmarshal` into `Envelope` succeeds on a JSON object (or `null`,
leaving zero values) and fails on any other JSON value or on a non-string
`type` field. -/
def goParseEnvelope : Json → Option GoEnvelope
  | .null => some ⟨"", none⟩
  | .obj fields =>
    match lookupField fields "type" with
    | none => some ⟨"", lookupField fields "payload"⟩
    | some (.str s) => some ⟨s, lookupField fields "payload"⟩
    | some _ => none
  | _ => none

/-- Go `json.Unmarshal` of a payload into a struct with a single string
field (`JoinPayload.Room`, `IdentifyPayload.ClientType`): a nil raw
message fails, JSON `null` yields the zero value `""`, an object yields
the field (zero value `""` when absent, error when present but not a
string), any other JSON value fails. -/
def goUnmarshalStringField (field : String) : Option Json → Option String
  | none => none
  | some .null => some ""
  | some (.obj fields) =>
    match lookupField fields field with
    | none => some ""
    | some (.str s) => some s
    | some _ => none
  | some _ => none

/-- A character accepted by the room-code pattern `[a-zA-Z0-9]`. -/
def isAlphanumChar (c : Char) : Bool :=
  (('a' ≤ c && c ≤ 'z') || ('A' ≤ c && c ≤ 'Z') || ('0' ≤ c && c ≤ '9'))

/-- `roomCodeRegex` from `src/server/relay.go`: `^[a-zA-Z0-9]{4,8}$`. -/
def roomCodeMatches (s : String) : Bool :=
  decide (4 ≤ s.length) && decide (s.length ≤ 8) && s.toList.all isAlphanumChar

/-- The room-code alphabet used by `generateRoomCode` (no 0/O/1/I). -/
def roomCodeChars : List Char := "ABCDEFGHJKLMNPQRSTUVWXYZ23456789".toList

/-- `generateRoomCode` from the pairing-session module: six draws of
`Math.floor(Math.random() * chars.length)`; the random draws are injected
as a function `Fin 6 → Fin 32` (each draw is a valid index into the
32-character alphabet). -/
def generateRoomCode (draws : Fin 6 → Fin 32) : String :=
  String.mk ((List.finRange 6).map fun i =>
    roomCodeChars.get (Fin.cast (by decide) (draws i)))

/-- `ClientType` from `src/server/relay.go`: `""` / `"foundry"` /
`"phone"`, modelled as a closed enum. -/
inductive ClientType where
  | unknown : ClientType
  | foundry : ClientType
  | phone : ClientType
deriving DecidableEq, Repr

/-- `handleIdentify` from `src/server/relay.go`, restricted to its effect
on the client's `clientType` field: an unparseable payload or an
unrecognized `clientType` string leaves the field unchanged (logged and
ignored); `"foundry"` and `"phone"` assign the corresponding role. -/
def handleIdentify (ct : ClientType) (payload : Option Json) : ClientType :=
  match goUnmarshalStringField "clientType" payload with
  | none => ct
  | some s =>
    if s = "foundry" then ClientType.foundry
    else if s = "phone" then ClientType.phone
    else ct

/-- The room registry `Relay.rooms : map[string]map[*Client]struct{}`,
modelled as an association list from room code to the member set (a
duplicate-free list of opaque client identities). -/
abbrev Registry : Type := List (String × List Nat)

/-- Set insertion, modelling `rooms[c.room][c] = struct{}{}` on a Go
map-used-as-set. -/
def setInsert (c : Nat) (s : List Nat) : List Nat :=
  if c ∈ s then s else c :: s

/-- `addToRoom` from `src/server/relay.go`: create the member set if the
room is absent, then insert the client. -/
def addToRoom (room : String) (c : Nat) : Registry → Registry
  | [] => [(room, [c])]
  | (r, s) :: rest =>
    if r = room then (r, setInsert c s) :: rest
    else (r, s) :: addToRoom room c rest

/-- `removeFromRoom` from `src/server/relay.go`: delete the client from
its room's member set and delete the room entry when the set becomes
empty. -/
def removeFromRoom (room : String) (c : Nat) : Registry → Registry
  | [] => []
  | (r, s) :: rest =>
    if r = room then
      let s2 := s.erase c
      if s2.isEmpty then rest else (r, s2) :: rest
    else (r, s) :: removeFromRoom room c rest

/-- `Relay.RoomCount`: the number of entries of the rooms map. -/
def RoomCount (reg : Registry) : Nat := reg.length

/-- `Relay.ClientCount`: the sum over rooms of the member-set sizes. -/
def ClientCount (reg : Registry) : Nat :=
  (reg.map (fun p => p.2.length)).sum

/-- The member set of a room (`r.rooms[room]`, empty when absent). -/
def membersOf (reg : Registry) (room : String) : List Nat :=
  (reg.lookup room).getD []

/-- One registry mutation: a client joining or leaving a room. -/
inductive RegOp where
  | add (room : String) (c : Nat) : RegOp
  | remove (room : String) (c : Nat) : RegOp
deriving DecidableEq, Repr

/-- Apply one registry mutation. -/
def applyOp (reg : Registry) : RegOp → Registry
  | .add room c => addToRoom room c reg
  | .remove room c => removeFromRoom room c reg

/-- Apply a sequence of registry mutations in order. -/
def applyOps (ops : List RegOp) (reg : Registry) : Registry :=
  ops.foldl applyOp reg

/-- Registry well-formedness: room keys are distinct (it is a map), and
every member set is nonempty (no leaked empty rooms) and duplicate-free
(it is a set). -/
def RegWF (reg : Registry) : Prop :=
  (reg.map Prod.fst).Nodup ∧ ∀ p ∈ reg, p.2 ≠ [] ∧ p.2.Nodup

/-- Capacity of a client's outbound queue: `make(chan []byte, 64)`. -/
def sendChanCap : Nat := 64

/-- A connected client as the relay sees it (`Client` in
`src/server/relay.go`): opaque identity, joined room, role tag, the
bounded outbound queue (queued wire messages, oldest first), and whether
the connection has been closed. -/
structure RClient where
  id : Nat
  room : String
  clientType : ClientType
  sendChan : List Json
  closed : Bool

/-- The non-blocking channel send
`select case c.sendChan <- msg default: drop`: enqueue when the buffer
has free capacity, silently drop otherwise. -/
def trySend (q : List Json) (msg : Json) : List Json :=
  if q.length < sendChanCap then q ++ [msg] else q

/-- The per-member delivery loop of `broadcastRoomStatus` (and of any
room broadcast): a non-blocking enqueue on every listed client. -/
def broadcastToClients (clients : List RClient) (msg : Json) : List RClient :=
  clients.map fun c => { c with sendChan := trySend c.sendChan msg }

/-- The NATS subject for a room: `fmt.Sprintf("game.%s", room)`. -/
def gameSubject (room : String) : String := "game." ++ room

/-- Fan-out of a NATS publish: every client holds the subscription made
in `waitForJoin` on `gameSubject` of its own room, whose callback does a
non-blocking enqueue of the published data. -/
def natsDeliver (clients : List RClient) (subject : String) (data : Json) :
    List RClient :=
  clients.map fun c =>
    if gameSubject c.room = subject then
      { c with sendChan := trySend c.sendChan data }
    else c

/-- What `readPump` does with one inbound frame. -/
inductive ReadAction where
  | publish (subject : String) (data : Json) : ReadAction
  | localIdentify (payload : Option Json) : ReadAction
  | dropInvalid : ReadAction

/-- One iteration of `readPump` from `src/server/relay.go` for a client
joined to `room`: an unparseable frame is logged and skipped, an
`IDENTIFY` is consumed locally, and every other parsed frame is published
unmodified to the room's subject. -/
def readPumpStep (room : String) (msg : Json) : ReadAction :=
  match goParseEnvelope msg with
  | none => .dropInvalid
  | some env =>
    if env.type = "IDENTIFY" then .localIdentify env.payload
    else .publish (gameSubject room) msg

/-- Outcome of the join handshake. -/
inductive JoinOutcome where
  | joined (room : String) : JoinOutcome
  | closedWith (code : Nat) : JoinOutcome
deriving DecidableEq, Repr

/-- `waitForJoin` from `src/server/relay.go`.  `firstMsg` is the first
inbound frame (`none` = not well-formed JSON); `subscribeOk` injects the
outcome of the external NATS subscribe call. -/
def waitForJoin (firstMsg : Option Json) (subscribeOk : Bool) : JoinOutcome :=
  match firstMsg with
  | none => .closedWith 4001
  | some j =>
    match goParseEnvelope j with
    | none => .closedWith 4001
    | some env =>
      if env.type = "JOIN" then
        match goUnmarshalStringField "room" env.payload with
        | none => .closedWith 4001
        | some room =>
          if roomCodeMatches room then
            if subscribeOk then .joined room else .closedWith 4003
          else .closedWith 4002
      else .closedWith 4001

/-- The join phase of `HandleClient`: run `waitForJoin`; on success
register the connection in its room, otherwise leave the registry
untouched. -/
def handleClientJoin (reg : Registry) (c : Nat) (firstMsg : Option Json)
    (subscribeOk : Bool) : JoinOutcome × Registry :=
  match waitForJoin firstMsg subscribeOk with
  | .joined room => (.joined room, addToRoom room c reg)
  | .closedWith code => (.closedWith code, reg)

/-- `PairingSession` from the pairing-session module.  Timestamps are
millisecond clock readings, modelled as integers. -/
structure PairingSession where
  code : String
  tokenId : String
  sceneId : String
  actorId : String
  createdAt : Int
deriving DecidableEq, Repr

/-- `SESSION_TTL_MS = 5 * 60 * 1000`. -/
def SESSION_TTL_MS : Int := 5 * 60 * 1000

/-- `isExpired(session, now, ttlMs)`: `now - session.createdAt > ttlMs`. -/
def isExpired (session : PairingSession) (now : Int) (ttlMs : Int) : Bool :=
  now - session.createdAt > ttlMs

/-- The session store, a `Map` keyed by pairing code (unique keys). -/
abbrev SessionMap : Type := List (String × PairingSession)

/-- `validateSession(sessions, code, now, ttlMs)` in state-passing form:
the returned map is the store as the function leaves it (the source only
ever calls `sessions.get`, so it is returned unchanged). -/
def validateSession (sessions : SessionMap) (code : String) (now ttlMs : Int) :
    Option PairingSession × SessionMap :=
  match sessions.lookup code with
  | none => (none, sessions)
  | some s => if isExpired s now ttlMs then (none, sessions) else (some s, sessions)

/-- `MAX_RECONNECT_DELAY = 30000` (phone client). -/
def MAX_RECONNECT_DELAY : Nat := 30000

/-- The backoff delay computed by `scheduleReconnect`:
`Math.min(1000 * Math.pow(2, reconnectAttempts), MAX_RECONNECT_DELAY)`. -/
def reconnectDelay (attempts : Nat) : Nat :=
  min (1000 * 2 ^ attempts) MAX_RECONNECT_DELAY

/-- The phone client's connection state, restricted to the fields the
close handler touches.  `scheduledDelay` is `some d` when a reconnect
timer for delay `d` is pending, `none` otherwise. -/
structure GameConnState where
  isConnected : Bool
  isPaired : Bool
  reconnectAttempts : Nat
  scheduledDelay : Option Nat
deriving DecidableEq, Repr

/-- `scheduleReconnect` from the phone client: cancel any pending timer,
compute the backoff delay from the current attempt counter, bump the
counter, and arm the timer. -/
def scheduleReconnect (s : GameConnState) : GameConnState :=
  { s with reconnectAttempts := s.reconnectAttempts + 1,
           scheduledDelay := some (reconnectDelay s.reconnectAttempts) }

/-- The `socket.onclose` handler (`handleSocketClose`): mark the client
disconnected, then schedule a reconnect only when the client is paired. -/
def handleSocketClose (s : GameConnState) : GameConnState :=
  let s1 := { s with isConnected := false }
  if s1.isPaired then scheduleReconnect s1 else s1

/-- The TS-side envelope produced by `parseMessage`
(`src/foundry-module/src/core/messages.ts`). -/
structure JsEnvelope where
  type : String
  payload : Json

/-- The closed union `MessageType` declared in
`src/foundry-module/src/core/messages.ts`. -/
def declaredMessageTypes : List String :=
  ["JOIN", "PAIR", "PAIR_SUCCESS", "PAIR_FAILED",
   "LOGIN", "LOGIN_SUCCESS", "LOGIN_FAILED",
   "SELECT_TOKEN", "SELECT_TOKEN_SUCCESS",
   "MOVE", "MOVE_ACK", "ACTOR_INFO", "ACTOR_UPDATE",
   "USE_ABILITY", "USE_ABILITY_RESULT",
   "ROLL_DICE", "ROLL_DICE_RESULT"]

/-- `parseMessage` from `src/foundry-module/src/core/messages.ts`,
modelled on the value `JSON.parse` yields (`none` = the parse threw).
Property access on the `null` value throws inside the same `try`, so it
also returns `none`; a non-string `type` returns `none`; a missing or
`null` `payload` defaults to the empty object (`payload ??` with an
empty-object fallback). -/
def parseMessage (parsed : Option Json) : Option JsEnvelope :=
  match parsed with
  | none => none
  | some .null => none
  | some v =>
    match jsGetField v "type" with
    | some (.str t) =>
      some { type := t,
             payload :=
               match jsGetField v "payload" with
               | none => .obj []
               | some .null => .obj []
               | some p => p }
    | _ => none

/-- Whether a JSON value is an object in the JS sense (`T extends object`
in the signature of `buildMessage`: object literals and arrays). -/
def isJsObject : Json → Bool
  | .obj _ => true
  | .arr _ => true
  | _ => false

/-- `buildMessage` from `src/foundry-module/src/core/messages.ts` at the
value level: `JSON.stringify` of the two-field object literal. -/
def buildMessage (type : String) (payload : Json) : Json :=
  Json.obj [("type", Json.str type), ("payload", payload)]

/-! ### Helper lemmas -/

theorem mem_setInsert_self (c : Nat) (s : List Nat) : c ∈ setInsert c s := by
  unfold setInsert
  split
  · assumption
  · exact List.mem_cons_self c s

theorem setInsert_ne_nil (c : Nat) (s : List Nat) : setInsert c s ≠ [] := by
  unfold setInsert
  split
  · intro h
    subst h
    simp at *
  · simp

theorem setInsert_nodup (c : Nat) (s : List Nat) (h : s.Nodup) :
    (setInsert c s).Nodup := by
  unfold setInsert
  split
  · exact h
  · exact List.nodup_cons.mpr ⟨by assumption, h⟩

theorem handleIdentify_cases (ct : ClientType) (p : Option Json) :
    handleIdentify ct p = ct ∨ handleIdentify ct p = ClientType.foundry ∨
      handleIdentify ct p = ClientType.phone := by
  unfold handleIdentify
  cases goUnmarshalStringField "clientType" p with
  | none => exact Or.inl rfl
  | some s =>
    by_cases hf : s = "foundry"
    · simp [hf]
    · by_cases hp : s = "phone" <;> simp [hf, hp]

theorem handleIdentify_ne_unknown (ct : ClientType) (p : Option Json)
    (h : ct ≠ ClientType.unknown) : handleIdentify ct p ≠ ClientType.unknown := by
  rcases handleIdentify_cases ct p with heq | heq | heq <;> rw [heq]
  · exact h
  · simp
  · simp

theorem addToRoom_keys (room : String) (c : Nat) (reg : Registry) :
    ∀ x ∈ (addToRoom room c reg).map Prod.fst,
      x = room ∨ x ∈ reg.map Prod.fst := by
  induction reg with
  | nil =>
    intro x hx
    simp [addToRoom] at hx
    exact Or.inl hx
  | cons p rest ih =>
    obtain ⟨r, s⟩ := p
    intro x hx
    by_cases hr : r = room
    · rw [show addToRoom room c ((r, s) :: rest) = (r, setInsert c s) :: rest
          from by simp [addToRoom, hr]] at hx
      rw [List.map_cons] at hx
      rcases List.mem_cons.mp hx with hx | hx
      · exact Or.inl (by rw [hx]; exact hr)
      · exact Or.inr (by rw [List.map_cons]; exact List.mem_cons_of_mem _ hx)
    · rw [show addToRoom room c ((r, s) :: rest) = (r, s) :: addToRoom room c rest
          from by simp [addToRoom, hr]] at hx
      rw [List.map_cons] at hx
      rcases List.mem_cons.mp hx with hx | hx
      · exact Or.inr (by rw [List.map_cons, hx]; exact List.mem_cons_self _ _)
      · rcases ih x hx with h | h
        · exact Or.inl h
        · exact Or.inr (by rw [List.map_cons]; exact List.mem_cons_of_mem _ h)

theorem removeFromRoom_keys (room : String) (c : Nat) (reg : Registry) :
    ∀ x ∈ (removeFromRoom room c reg).map Prod.fst, x ∈ reg.map Prod.fst := by
  induction reg with
  | nil =>
    intro x hx
    simp [removeFromRoom] at hx
  | cons p rest ih =>
    obtain ⟨r, s⟩ := p
    intro x hx
    rw [List.map_cons]
    by_cases hr : r = room
    · by_cases he : (s.erase c).isEmpty
      · rw [show removeFromRoom room c ((r, s) :: rest) = rest
            from by simp [removeFromRoom, hr, he]] at hx
        exact List.mem_cons_of_mem _ hx
      · rw [show removeFromRoom room c ((r, s) :: rest) = (r, s.erase c) :: rest
            from by simp [removeFromRoom, hr, he]] at hx
        rw [List.map_cons] at hx
        rcases List.mem_cons.mp hx with hx | hx
        · exact (by rw [hx]; exact List.mem_cons_self _ _)
        · exact List.mem_cons_of_mem _ hx
    · rw [show removeFromRoom room c ((r, s) :: rest) =
            (r, s) :: removeFromRoom room c rest
          from by simp [removeFromRoom, hr]] at hx
      rw [List.map_cons] at hx
      rcases List.mem_cons.mp hx with hx | hx
      · exact (by rw [hx]; exact List.mem_cons_self _ _)
      · exact List.mem_cons_of_mem _ (ih x hx)

theorem regWF_addToRoom (room : String) (c : Nat) (reg : Registry)
    (h : RegWF reg) : RegWF (addToRoom room c reg) := by
  induction reg with
  | nil =>
    refine ⟨by simp [addToRoom], ?_⟩
    intro p hp
    simp [addToRoom] at hp
    subst hp
    exact ⟨by simp, by simp⟩
  | cons q rest ih =>
    obtain ⟨r, s⟩ := q
    obtain ⟨hkeys, hmem⟩ := h
    rw [List.map_cons, List.nodup_cons] at hkeys
    have hrest : RegWF rest := ⟨hkeys.2, fun p hp => hmem p (List.mem_cons_of_mem _ hp)⟩
    have hhd := hmem (r, s) (List.mem_cons_self _ _)
    by_cases hr : r = room
    · simp only [addToRoom, if_pos hr]
      refine ⟨?_, ?_⟩
      · rw [List.map_cons, List.nodup_cons]
        exact ⟨hkeys.1, hkeys.2⟩
      · intro p hp
        rcases List.mem_cons.mp hp with hp | hp
        · subst hp
          exact ⟨setInsert_ne_nil c s, setInsert_nodup c s hhd.2⟩
        · exact hmem p (List.mem_cons_of_mem _ hp)
    · simp only [addToRoom, if_neg hr]
      obtain ⟨ihkeys, ihmem⟩ := ih hrest
      refine ⟨?_, ?_⟩
      · rw [List.map_cons, List.nodup_cons]
        refine ⟨?_, ihkeys⟩
        intro hcontra
        rcases addToRoom_keys room c rest r hcontra with h | h
        · exact hr h
        · exact hkeys.1 h
      · intro p hp
        rcases List.mem_cons.mp hp with hp | hp
        · subst hp
          exact hhd
        · exact ihmem p hp

theorem regWF_removeFromRoom (room : String) (c : Nat) (reg : Registry)
    (h : RegWF reg) : RegWF (removeFromRoom room c reg) := by
  induction reg with
  | nil => exact ⟨by simp [removeFromRoom], by simp [removeFromRoom]⟩
  | cons q rest ih =>
    obtain ⟨r, s⟩ := q
    obtain ⟨hkeys, hmem⟩ := h
    rw [List.map_cons, List.nodup_cons] at hkeys
    have hrest : RegWF rest := ⟨hkeys.2, fun p hp => hmem p (List.mem_cons_of_mem _ hp)⟩
    have hhd := hmem (r, s) (List.mem_cons_self _ _)
    by_cases hr : r = room
    · by_cases he : (s.erase c).isEmpty
      · simpa [removeFromRoom, hr, he] using hrest
      · simp only [removeFromRoom, if_pos hr, if_neg he]
        refine ⟨?_, ?_⟩
        · rw [List.map_cons, List.nodup_cons]
          exact ⟨hkeys.1, hkeys.2⟩
        · intro p hp
          rcases List.mem_cons.mp hp with hp | hp
          · subst hp
            refine ⟨?_, List.Nodup.erase c hhd.2⟩
            intro hnil
            have hnil2 : s.erase c = [] := hnil
            rw [hnil2] at he
            simp at he
          · exact hmem p (List.mem_cons_of_mem _ hp)
    · simp only [removeFromRoom, if_neg hr]
      obtain ⟨ihkeys, ihmem⟩ := ih hrest
      refine ⟨?_, ?_⟩
      · rw [List.map_cons, List.nodup_cons]
        refine ⟨?_, ihkeys⟩
        intro hcontra
        exact hkeys.1 (removeFromRoom_keys room c rest r hcontra)
      · intro p hp
        rcases List.mem_cons.mp hp with hp | hp
        · subst hp
          exact hhd
        · exact ihmem p hp

theorem mem_membersOf_addToRoom_self (room : String) (c : Nat) (reg : Registry) :
    c ∈ membersOf (addToRoom room c reg) room := by
  induction reg with
  | nil => simp [addToRoom, membersOf, List.lookup]
  | cons p rest ih =>
    obtain ⟨r, s⟩ := p
    by_cases hr : r = room
    · subst hr
      simp [addToRoom, membersOf, List.lookup]
      exact mem_setInsert_self c s
    · have hbeq : (room == r) = false := by
        simp [Ne.symm hr]
      simp only [addToRoom, if_neg hr, membersOf, List.lookup, hbeq] at ih ⊢
      exact ih

theorem membersOf_addToRoom_ne (room rq : String) (c : Nat) (reg : Registry)
    (h : rq ≠ room) : membersOf (addToRoom room c reg) rq = membersOf reg rq := by
  induction reg with
  | nil =>
    have hbeq : (rq == room) = false := by
      simp [h]
    simp [addToRoom, membersOf, List.lookup, hbeq]
  | cons p rest ih =>
    obtain ⟨r, s⟩ := p
    by_cases hr : r = room
    · subst hr
      have hbeq : (rq == r) = false := by
        simp [h]
      simp [addToRoom, membersOf, List.lookup, hbeq]
    · by_cases hq : rq = r
      · subst hq
        simp [addToRoom, if_neg hr, membersOf, List.lookup]
      · have hbeq : (rq == r) = false := by
          simp [hq]
        simp only [addToRoom, if_neg hr, membersOf, List.lookup, hbeq] at ih ⊢
        exact ih

theorem gameSubject_inj (a b : String) (h : gameSubject a = gameSubject b) :
    a = b := by
  unfold gameSubject at h
  have hd : "game.".data ++ a.data = "game.".data ++ b.data := by
    have hdata := congrArg String.data h
    simpa using hdata
  have hdd : a.data = b.data := List.append_cancel_left hd
  cases a
  cases b
  exact congrArg String.mk hdd

theorem regWF_applyOps (ops : List RegOp) (reg : Registry) (h : RegWF reg) :
    RegWF (applyOps ops reg) := by
  induction ops generalizing reg with
  | nil => exact h
  | cons op rest ih =>
    show RegWF (applyOps rest (applyOp reg op))
    refine ih (applyOp reg op) ?_
    cases op with
    | add room c => exact regWF_addToRoom room c reg h
    | remove room c => exact regWF_removeFromRoom room c reg h

/-! ### Claim theorems -/

/-- C4: after any sequence of `addToRoom` / `removeFromRoom` operations
starting from the empty registry, every room present in the registry has
a nonempty member set (removing the last member deletes the room entry),
`RoomCount` equals the number of distinct rooms in the map, and
`ClientCount` equals the sum of the member-set cardinalities. -/
theorem registry_invariant_spec (ops : List RegOp) :
    ((applyOps ops []).all fun p => !p.2.isEmpty) = true ∧
    RoomCount (applyOps ops []) =
      ((applyOps ops []).map Prod.fst).dedup.length ∧
    ClientCount (applyOps ops []) =
      ((applyOps ops []).map fun p => p.2.dedup.length).sum := by
  have hwf : RegWF (applyOps ops []) :=
    regWF_applyOps ops [] ⟨by simp, by simp⟩
  obtain ⟨hkeys, hmem⟩ := hwf
  refine ⟨?_, ?_, ?_⟩
  · rw [List.all_eq_true]
    intro p hp
    simpa using (hmem p hp).1
  · unfold RoomCount
    rw [List.Nodup.dedup hkeys, List.length_map]
  · unfold ClientCount
    congr 1
    apply List.map_congr_left
    intro p hp
    rw [List.Nodup.dedup (hmem p hp).2]

/-- C2: `validateSession` returns the stored session unchanged for a
present, unexpired code, `none` for an absent code, and `none` for a
present but expired code; in all cases the session map is returned
completely unmodified (no delete on read), so a repeated call with the
same arguments yields the same result. -/
theorem validateSession_spec (sessions : SessionMap) (code : String)
    (now ttl : Int) :
    (validateSession sessions code now ttl).2 = sessions ∧
    (sessions.lookup code = none →
      (validateSession sessions code now ttl).1 = none) ∧
    (∀ s, sessions.lookup code = some s → isExpired s now ttl = true →
      (validateSession sessions code now ttl).1 = none) ∧
    (∀ s, sessions.lookup code = some s → isExpired s now ttl = false →
      (validateSession sessions code now ttl).1 = some s) ∧
    validateSession (validateSession sessions code now ttl).2 code now ttl =
      validateSession sessions code now ttl := by
  have hsnd : (validateSession sessions code now ttl).2 = sessions := by
    unfold validateSession
    cases sessions.lookup code with
    | none => rfl
    | some s =>
      by_cases h : isExpired s now ttl = true
      · simp [h]
      · simp [h]
  refine ⟨hsnd, ?_, ?_, ?_, by rw [hsnd]⟩
  · intro h
    simp [validateSession, h]
  · intro s hs hexp
    simp [validateSession, hs, hexp]
  · intro s hs hexp
    simp [validateSession, hs, hexp]

/-- C2 witness: a concrete one-entry store, queried with its own code
while fresh, with an unknown code, and with its own code after expiry. -/
theorem validateSession_spec_witness :
    (([("1234", PairingSession.mk "1234" "tok" "sc" "ac" 0)] : SessionMap).lookup
        "1234" = some (PairingSession.mk "1234" "tok" "sc" "ac" 0)) ∧
    isExpired (PairingSession.mk "1234" "tok" "sc" "ac" 0) 10 300000 = false ∧
    (validateSession [("1234", PairingSession.mk "1234" "tok" "sc" "ac" 0)]
        "1234" 10 300000).1 = some (PairingSession.mk "1234" "tok" "sc" "ac" 0) := by
  have h := validateSession_spec
    [("1234", PairingSession.mk "1234" "tok" "sc" "ac" 0)] "1234" 10 300000
  exact ⟨by decide, by decide,
    h.2.2.2.1 (PairingSession.mk "1234" "tok" "sc" "ac" 0) (by decide) (by decide)⟩

/-- C3: `isExpired` is exactly `now - createdAt > ttl`; for nonnegative
`ttl` it is false at `now = createdAt`, false at `createdAt + ttl - 1`,
and true at `createdAt + ttl + 1`; the default TTL is 300000 ms. -/
theorem isExpired_spec (s : PairingSession) (now ttl : Int) (httl : 0 ≤ ttl) :
    isExpired s now ttl = decide (now - s.createdAt > ttl) ∧
    isExpired s s.createdAt ttl = false ∧
    isExpired s (s.createdAt + ttl - 1) ttl = false ∧
    isExpired s (s.createdAt + ttl + 1) ttl = true ∧
    SESSION_TTL_MS = 300000 := by
  refine ⟨rfl, ?_, ?_, ?_, by decide⟩ <;> simp [isExpired] <;> omega

/-- C3 witness: the boundary behaviour at a concrete session created at
time 1000 with the default TTL. -/
theorem isExpired_spec_witness :
    (0 : Int) ≤ SESSION_TTL_MS ∧
    isExpired (PairingSession.mk "1234" "tok" "sc" "ac" 1000) 1000
      SESSION_TTL_MS = false ∧
    isExpired (PairingSession.mk "1234" "tok" "sc" "ac" 1000)
      (1000 + SESSION_TTL_MS - 1) SESSION_TTL_MS = false ∧
    isExpired (PairingSession.mk "1234" "tok" "sc" "ac" 1000)
      (1000 + SESSION_TTL_MS + 1) SESSION_TTL_MS = true := by
  have h := isExpired_spec (PairingSession.mk "1234" "tok" "sc" "ac" 1000)
    1000 SESSION_TTL_MS (by decide)
  exact ⟨by decide, h.2.1, h.2.2.1, h.2.2.2.1⟩

/-- C8 counterexample: the role tag is not settable only once.  A client
that identifies as `"foundry"` and then as `"phone"` has its role leave
the unknown state and later change to a different role. -/
theorem identify_set_once_counterexample :
    handleIdentify ClientType.unknown
        (some (Json.obj [("clientType", Json.str "foundry")])) =
      ClientType.foundry ∧
    handleIdentify ClientType.foundry
        (some (Json.obj [("clientType", Json.str "phone")])) =
      ClientType.phone ∧
    ClientType.foundry ≠ ClientType.unknown ∧
    ClientType.phone ≠ ClientType.foundry := by
  refine ⟨rfl, rfl, by decide, by decide⟩

/-- C8 (amended): the role tag starts unknown and is updated by every
valid `IDENTIFY` — `"foundry"` and `"phone"` payloads assign that role
(possibly replacing a previously assigned one), unparseable payloads and
unrecognized role strings leave the tag unchanged, and once the tag has
left the unknown state it never returns to unknown, over any sequence of
`IDENTIFY` messages. -/
theorem identify_role_spec (ct : ClientType) (p : Option Json)
    (msgs : List (Option Json)) (hct : ct ≠ ClientType.unknown) :
    (handleIdentify ct p = ct ∨ handleIdentify ct p = ClientType.foundry ∨
      handleIdentify ct p = ClientType.phone) ∧
    (goUnmarshalStringField "clientType" p = some "foundry" →
      handleIdentify ct p = ClientType.foundry) ∧
    (goUnmarshalStringField "clientType" p = some "phone" →
      handleIdentify ct p = ClientType.phone) ∧
    (goUnmarshalStringField "clientType" p = none → handleIdentify ct p = ct) ∧
    handleIdentify ct p ≠ ClientType.unknown ∧
    List.foldl handleIdentify ct msgs ≠ ClientType.unknown := by
  refine ⟨handleIdentify_cases ct p, ?_, ?_, ?_,
    handleIdentify_ne_unknown ct p hct, ?_⟩
  · intro h
    simp [handleIdentify, h]
  · intro h
    simp [handleIdentify, h]
  · intro h
    simp [handleIdentify, h]
  · induction msgs generalizing ct with
    | nil => exact hct
    | cons q rest ih =>
      exact ih (handleIdentify ct q) (handleIdentify_ne_unknown ct q hct)

/-- C8 amended-claim witness: concrete behaviour starting from an
already-identified foundry client fed a phone identify. -/
theorem identify_role_spec_witness :
    ClientType.foundry ≠ ClientType.unknown ∧
    handleIdentify ClientType.foundry
        (some (Json.obj [("clientType", Json.str "phone")])) ≠
      ClientType.unknown ∧
    List.foldl handleIdentify ClientType.foundry
        [some (Json.obj [("clientType", Json.str "phone")]), none] ≠
      ClientType.unknown := by
  have h := identify_role_spec ClientType.foundry
    (some (Json.obj [("clientType", Json.str "phone")]))
    [some (Json.obj [("clientType", Json.str "phone")]), none] (by decide)
  exact ⟨by decide, h.2.2.2.2.1, h.2.2.2.2.2⟩

/-- C9: on transport close the client enters the backoff/retry state
exactly when it had reached the paired state: a close while paired arms
the reconnect timer with the backoff delay and bumps the attempt counter,
while a close when never paired arms no timer. -/
theorem reconnect_on_close_spec (s : GameConnState)
    (hidle : s.scheduledDelay = none) :
    ((handleSocketClose s).scheduledDelay ≠ none ↔ s.isPaired = true) ∧
    (handleSocketClose s).isConnected = false ∧
    (s.isPaired = true →
      handleSocketClose s =
        { s with isConnected := false,
                 reconnectAttempts := s.reconnectAttempts + 1,
                 scheduledDelay := some (reconnectDelay s.reconnectAttempts) }) ∧
    (s.isPaired = false → handleSocketClose s = { s with isConnected := false }) := by
  cases hpair : s.isPaired <;>
    simp [handleSocketClose, scheduleReconnect, hpair, hidle]

/-- C9 witness: a paired client with no pending timer schedules a retry
on close; the same client unpaired does not. -/
theorem reconnect_on_close_spec_witness :
    (GameConnState.mk true true 0 none).scheduledDelay = none ∧
    (handleSocketClose (GameConnState.mk true true 0 none)).scheduledDelay ≠
      none ∧
    (handleSocketClose (GameConnState.mk true false 0 none)).scheduledDelay =
      none := by
  have h1 := reconnect_on_close_spec (GameConnState.mk true true 0 none) rfl
  have h2 := reconnect_on_close_spec (GameConnState.mk true false 0 none) rfl
  refine ⟨rfl, h1.1.mpr rfl, ?_⟩
  have := h2.2.2.2 rfl
  rw [this]

/-- C1: when the first inbound message is a JOIN carrying a room string,
the connection is accepted and registered as a member of exactly that one
room if the room matches `^[a-zA-Z0-9]{4,8}$` (given the external topic
subscribe succeeds); if the room string does not match, the relay closes
with code 4002 and the connection is never added to any room's member
set. -/
theorem join_room_spec (reg : Registry) (c : Nat) (j : Json) (env : GoEnvelope)
    (room : String) (b : Bool)
    (hparse : goParseEnvelope j = some env) (htype : env.type = "JOIN")
    (hroom : goUnmarshalStringField "room" env.payload = some room)
    (hfresh : ∀ r, c ∉ membersOf reg r) :
    (roomCodeMatches room = true →
      handleClientJoin reg c (some j) true =
        (JoinOutcome.joined room, addToRoom room c reg) ∧
      c ∈ membersOf (addToRoom room c reg) room ∧
      ∀ r, r ≠ room → c ∉ membersOf (addToRoom room c reg) r) ∧
    (roomCodeMatches room = false →
      handleClientJoin reg c (some j) b = (JoinOutcome.closedWith 4002, reg) ∧
      ∀ r, c ∉ membersOf reg r) := by
  constructor
  · intro hmatch
    have hwait : waitForJoin (some j) true = JoinOutcome.joined room := by
      simp [waitForJoin, hparse, htype, hroom, hmatch]
    refine ⟨by simp [handleClientJoin, hwait],
      mem_membersOf_addToRoom_self room c reg, ?_⟩
    intro r hr
    rw [membersOf_addToRoom_ne room r c reg hr]
    exact hfresh r
  · intro hmatch
    have hwait : waitForJoin (some j) b = JoinOutcome.closedWith 4002 := by
      simp [waitForJoin, hparse, htype, hroom, hmatch]
    exact ⟨by simp [handleClientJoin, hwait], hfresh⟩

/-- C1 witness: a fresh connection joining `"GAME1"` on an empty relay is
accepted and lands in that room's member set. -/
theorem join_room_spec_witness :
    (goParseEnvelope
        (Json.obj [("type", Json.str "JOIN"),
                   ("payload", Json.obj [("room", Json.str "GAME1")])]) =
      some (GoEnvelope.mk "JOIN" (some (Json.obj [("room", Json.str "GAME1")]))) ∧
      roomCodeMatches "GAME1" = true) ∧
    handleClientJoin [] 7
        (some (Json.obj [("type", Json.str "JOIN"),
                         ("payload", Json.obj [("room", Json.str "GAME1")])]))
        true =
      (JoinOutcome.joined "GAME1", addToRoom "GAME1" 7 []) ∧
    7 ∈ membersOf (addToRoom "GAME1" 7 []) "GAME1" := by
  have h := join_room_spec [] 7
    (Json.obj [("type", Json.str "JOIN"),
               ("payload", Json.obj [("room", Json.str "GAME1")])])
    (GoEnvelope.mk "JOIN" (some (Json.obj [("room", Json.str "GAME1")])))
    "GAME1" true rfl rfl rfl (fun r => by simp [membersOf, List.lookup])
  have h1 := h.1 (by decide)
  exact ⟨⟨rfl, by decide⟩, h1.1, h1.2.1⟩

/-- C5: broadcasting to a room where exactly one member's outbound queue
is full (capacity 64) drops the message for that member without touching
it — the member's entire connection state, queue included, is unchanged —
while every member whose queue has free capacity gets the message
appended; the broadcast is a total function (never blocks, never
errors). -/
theorem broadcast_backpressure_spec (clients : List RClient) (msg : Json)
    (i : Nat) (ci : RClient) (hci : clients[i]? = some ci)
    (hfull : ci.sendChan.length = sendChanCap) :
    (broadcastToClients clients msg).length = clients.length ∧
    (broadcastToClients clients msg)[i]? = some ci ∧
    ∀ (j : Nat) (cj : RClient), clients[j]? = some cj →
      cj.sendChan.length < sendChanCap →
      (broadcastToClients clients msg)[j]? =
        some { cj with sendChan := cj.sendChan ++ [msg] } := by
  refine ⟨by simp [broadcastToClients], ?_, ?_⟩
  · simp [broadcastToClients, List.getElem?_map, hci, trySend, hfull]
  · intro j cj hcj hlt
    simp [broadcastToClients, List.getElem?_map, hcj, trySend, hlt]

/-- C5 witness: a two-member room, one member saturated with 64 queued
messages, the other with an empty queue. -/
theorem broadcast_backpressure_spec_witness :
    (([RClient.mk 0 "GAME1" ClientType.phone (List.replicate 64 Json.null) false,
       RClient.mk 1 "GAME1" ClientType.foundry [] false][0]? =
        some (RClient.mk 0 "GAME1" ClientType.phone
          (List.replicate 64 Json.null) false)) ∧
      (RClient.mk 0 "GAME1" ClientType.phone (List.replicate 64 Json.null)
        false).sendChan.length = sendChanCap) ∧
    (broadcastToClients
        [RClient.mk 0 "GAME1" ClientType.phone (List.replicate 64 Json.null) false,
         RClient.mk 1 "GAME1" ClientType.foundry [] false] (Json.str "hi"))[0]? =
      some (RClient.mk 0 "GAME1" ClientType.phone
        (List.replicate 64 Json.null) false) ∧
    (broadcastToClients
        [RClient.mk 0 "GAME1" ClientType.phone (List.replicate 64 Json.null) false,
         RClient.mk 1 "GAME1" ClientType.foundry [] false] (Json.str "hi"))[1]? =
      some (RClient.mk 1 "GAME1" ClientType.foundry [Json.str "hi"] false) := by
  have h := broadcast_backpressure_spec
    [RClient.mk 0 "GAME1" ClientType.phone (List.replicate 64 Json.null) false,
     RClient.mk 1 "GAME1" ClientType.foundry [] false] (Json.str "hi") 0
    (RClient.mk 0 "GAME1" ClientType.phone (List.replicate 64 Json.null) false)
    rfl (by simp [sendChanCap])
  refine ⟨⟨rfl, by simp [sendChanCap]⟩, h.2.1, ?_⟩
  have h2 := h.2.2 1 (RClient.mk 1 "GAME1" ClientType.foundry [] false)
    rfl (by simp [sendChanCap])
  simpa using h2

/-- C6: a parsed non-IDENTIFY message read from a connection joined to
room `room` (a MOVE needs no prior pairing — the step function takes no
pairing state at all) is published unmodified to the room's subject
`game.room`; the fan-out of that publish enqueues it exactly to the
clients subscribed to that room, and every client of a different room is
left completely untouched. -/
theorem relay_forwarding_spec (room : String) (msg : Json) (env : GoEnvelope)
    (hparse : goParseEnvelope msg = some env) (hident : env.type ≠ "IDENTIFY") :
    readPumpStep room msg = ReadAction.publish (gameSubject room) msg ∧
    (∀ (clients : List RClient) (j : Nat) (c : RClient),
      clients[j]? = some c → c.room = room →
      (natsDeliver clients (gameSubject room) msg)[j]? =
        some { c with sendChan := trySend c.sendChan msg }) ∧
    (∀ (clients : List RClient) (j : Nat) (c : RClient),
      clients[j]? = some c → c.room ≠ room →
      (natsDeliver clients (gameSubject room) msg)[j]? = some c) := by
  refine ⟨?_, ?_, ?_⟩
  · simp [readPumpStep, hparse, hident]
  · intro clients j c hc hroom
    simp [natsDeliver, List.getElem?_map, hc, hroom]
  · intro clients j c hc hroom
    have hne : gameSubject c.room ≠ gameSubject room := fun hcontra =>
      hroom (gameSubject_inj _ _ hcontra)
    simp [natsDeliver, List.getElem?_map, hc, hne]

/-- C6 witness: a MOVE sent right after joining `"GAME1"` with no pairing
is published to `game.GAME1`, and a client joined to `"GAME2"` does not
receive it. -/
theorem relay_forwarding_spec_witness :
    (goParseEnvelope
        (Json.obj [("type", Json.str "MOVE"),
                   ("payload", Json.obj [("direction", Json.str "up"),
                                         ("tokenId", Json.str "tok1")])]) =
      some (GoEnvelope.mk "MOVE"
        (some (Json.obj [("direction", Json.str "up"),
                         ("tokenId", Json.str "tok1")]))) ∧
      ("MOVE" : String) ≠ "IDENTIFY") ∧
    readPumpStep "GAME1"
        (Json.obj [("type", Json.str "MOVE"),
                   ("payload", Json.obj [("direction", Json.str "up"),
                                         ("tokenId", Json.str "tok1")])]) =
      ReadAction.publish (gameSubject "GAME1")
        (Json.obj [("type", Json.str "MOVE"),
                   ("payload", Json.obj [("direction", Json.str "up"),
                                         ("tokenId", Json.str "tok1")])]) ∧
    (natsDeliver [RClient.mk 2 "GAME2" ClientType.unknown [] false]
        (gameSubject "GAME1")
        (Json.obj [("type", Json.str "MOVE"),
                   ("payload", Json.obj [("direction", Json.str "up"),
                                         ("tokenId", Json.str "tok1")])]))[0]? =
      some (RClient.mk 2 "GAME2" ClientType.unknown [] false) := by
  have h := relay_forwarding_spec "GAME1"
    (Json.obj [("type", Json.str "MOVE"),
               ("payload", Json.obj [("direction", Json.str "up"),
                                     ("tokenId", Json.str "tok1")])])
    (GoEnvelope.mk "MOVE"
      (some (Json.obj [("direction", Json.str "up"),
                       ("tokenId", Json.str "tok1")])))
    rfl (by decide)
  exact ⟨⟨rfl, by decide⟩, h.1,
    h.2.2 [RClient.mk 2 "GAME2" ClientType.unknown [] false] 0
      (RClient.mk 2 "GAME2" ClientType.unknown [] false) rfl (by decide)⟩

/-- C7: for every declared message type and every JS-object payload,
`parseMessage` of `buildMessage` succeeds with the same type and a
payload deep-equal to the original; a well-formed JSON object with a
string `type` but no `payload` field parses to an empty-object payload;
text that is not well-formed JSON, or any JSON value without a string
`type` field, parses to `null`. -/
theorem parse_build_roundtrip_spec (t : String) (p : Json)
    (ht : t ∈ declaredMessageTypes) (hp : isJsObject p = true) :
    parseMessage (some (buildMessage t p)) = some { type := t, payload := p } ∧
    (∀ v u, jsGetField v "type" = some (Json.str u) →
      jsGetField v "payload" = none →
      parseMessage (some v) = some { type := u, payload := Json.obj [] }) ∧
    parseMessage none = none ∧
    (∀ v, (∀ u, jsGetField v "type" ≠ some (Json.str u)) →
      parseMessage (some v) = none) := by
  refine ⟨?_, ?_, rfl, ?_⟩
  · cases p with
    | obj fields => rfl
    | arr elems => rfl
    | null => simp [isJsObject] at hp
    | bool b => simp [isJsObject] at hp
    | num n => simp [isJsObject] at hp
    | str s => simp [isJsObject] at hp
  · intro v u htype hpayload
    cases v with
    | null => simp [jsGetField] at htype
    | bool b => simp [jsGetField] at htype
    | num n => simp [jsGetField] at htype
    | str s => simp [jsGetField] at htype
    | arr elems => simp [jsGetField] at htype
    | obj fields =>
      have ht2 : lookupField fields "type" = some (Json.str u) := htype
      have hp2 : lookupField fields "payload" = none := hpayload
      simp [parseMessage, jsGetField, ht2, hp2]
  · intro v hv
    cases v with
    | null => rfl
    | bool b => rfl
    | num n => rfl
    | str s => rfl
    | arr elems => rfl
    | obj fields =>
      cases hty : lookupField fields "type" with
      | none => simp [parseMessage, hty]
      | some w =>
        cases w with
        | str u => exact absurd hty (hv u)
        | null => simp [parseMessage, hty]
        | bool b => simp [parseMessage, hty]
        | num n => simp [parseMessage, hty]
        | arr elems => simp [parseMessage, hty]
        | obj ofields => simp [parseMessage, hty]

/-- C7 witness: round trip of a concrete MOVE payload, and the missing
payload default at a concrete object. -/
theorem parse_build_roundtrip_spec_witness :
    (("MOVE" ∈ declaredMessageTypes) ∧
      isJsObject (Json.obj [("direction", Json.str "up")]) = true) ∧
    parseMessage (some (buildMessage "MOVE"
        (Json.obj [("direction", Json.str "up")]))) =
      some (JsEnvelope.mk "MOVE" (Json.obj [("direction", Json.str "up")])) ∧
    parseMessage (some (Json.obj [("type", Json.str "PAIR")])) =
      some (JsEnvelope.mk "PAIR" (Json.obj [])) := by
  have h := parse_build_roundtrip_spec "MOVE"
    (Json.obj [("direction", Json.str "up")]) (by decide) rfl
  exact ⟨⟨by decide, rfl⟩, h.1,
    h.2.1 (Json.obj [("type", Json.str "PAIR")]) "PAIR" rfl rfl⟩

/-- C10: every room code produced by `generateRoomCode` has length 6,
draws all its characters from the ambiguity-free alphabet, and therefore
matches the relay's room-code pattern `^[a-zA-Z0-9]{4,8}$` — a JOIN with
a host-generated room code is never rejected with close code 4002. -/
theorem generateRoomCode_spec (draws : Fin 6 → Fin 32) :
    (generateRoomCode draws).length = 6 ∧
    ((generateRoomCode draws).toList.all fun c =>
      decide (c ∈ roomCodeChars)) = true ∧
    roomCodeMatches (generateRoomCode draws) = true := by
  have htl : (generateRoomCode draws).toList =
      (List.finRange 6).map fun i =>
        roomCodeChars.get (Fin.cast (by decide) (draws i)) := rfl
  have hmem : ∀ c ∈ (generateRoomCode draws).toList, c ∈ roomCodeChars := by
    intro c hc
    rw [htl] at hc
    obtain ⟨i, -, rfl⟩ := List.mem_map.mp hc
    exact List.get_mem _ _ _
  have hlen : (generateRoomCode draws).length = 6 := by
    show (generateRoomCode draws).toList.length = 6
    rw [htl]
    simp
  have halpha : ∀ c ∈ roomCodeChars, isAlphanumChar c = true := by
    intro c hc
    revert hc
    have hall : roomCodeChars.all isAlphanumChar = true := by decide
    exact fun hc => List.all_eq_true.mp hall c hc
  refine ⟨hlen, ?_, ?_⟩
  · rw [List.all_eq_true]
    intro c hc
    exact decide_eq_true (hmem c hc)
  · unfold roomCodeMatches
    rw [hlen]
    have : (generateRoomCode draws).toList.all isAlphanumChar = true := by
      rw [List.all_eq_true]
      exact fun c hc => halpha c (hmem c hc)
    rw [this]
    rfl

end VttRemote
